import Mathlib

/-!
Shallow embedding of the Installation Manager of the mcp-registry
repository (`src/installer.ts`), together with the surrounding data model
(`src/types.ts`).  Pure data is translated to Lean structures; the
filesystem effects of the installer (the per-package directories under the
configured installation directory and the `installed.json` ledger document)
are modelled as an explicit `State` value threaded through the operations;
external process invocations (`execSync`) are modelled by an oracle
`Env : ExtCmd → Bool` giving the success of each command, and the ordered list of
invoked commands is returned as a trace.  Timestamps
(`new Date().toISOString()`) are modelled by an abstract clock value `now`
passed to each operation.
-/

/-- Runtime type of a manifest: the `runtime.type` string union
(node, python, docker, binary) of `types.ts`. -/
inductive RuntimeType where
  | node
  | python
  | docker
  | binary
deriving DecidableEq, Repr

/-- The `runtime` field of `MCPServerManifest`: runtime type and entry point.
The optional `env`/`envOptional` fields are never read by the installer and
are omitted. -/
structure RuntimeCfg where
  type : RuntimeType
  entry : String
deriving DecidableEq, Repr

/-- The `installation` field of `MCPServerManifest`: the optional
installation hints. -/
structure InstallationCfg where
  npmPackage : Option String
  pypiPackage : Option String
  dockerImage : Option String
  githubRepo : Option String
  command : Option String
deriving DecidableEq, Repr

/-- The manifest fields that the installer reads (`id`, `version`,
`runtime`, `installation`); the purely descriptive fields (name, author,
keywords, ...) are carried through `manifest.json` snapshots unchanged and
are omitted from the embedding. -/
structure MCPServerManifest where
  id : String
  version : String
  runtime : RuntimeCfg
  installation : InstallationCfg
deriving DecidableEq, Repr

/-- One ledger record (`InstalledServer` of `types.ts`).  The timestamps are
abstract clock values.  The optional `config` field is never written or read
by the installer and is omitted. -/
structure InstalledServer where
  id : String
  version : String
  path : String
  installedAt : Nat
  updatedAt : Nat
deriving DecidableEq, Repr

/-- External process invocations performed by the installer via `execSync`. -/
inductive ExtCmd where
  | npmInstallPkg (pkg : String)
  | gitClone (repo : String)
  | npmInstall
  | pipInstallPkg (pkg : String)
  | pipInstallEditable
  | dockerPull (image : String)
deriving DecidableEq, Repr

/-- Success oracle for external processes: `env c = true` means the command
exits with status zero. -/
def Env : Type := ExtCmd → Bool

/-- Errors thrown by the installer (JS `Error` values, distinguished by
their message), plus `typeError` for the implicit JS `TypeError` raised when
list methods are invoked on a parsed ledger document that is not an array of
records, and `snapshotUnreadable` for a failing read/parse of a local
`manifest.json` snapshot. -/
inductive Err where
  | alreadyInstalled (id : String)
  | notInstalled (id : String)
  | noInstallationMethod
  | dockerImageNotSpecified
  | binaryNotImplemented
  | processFailed (c : ExtCmd)
  | typeError
  | snapshotUnreadable
deriving DecidableEq, Repr

/-- Minimal JSON value model, for the content of `installed.json`. -/
inductive Json where
  | null
  | bool (b : Bool)
  | num (n : Nat)
  | str (s : String)
  | arr (xs : List Json)
  | obj (fields : List (String × Json))

/-- Content of some file on disk: either text that fails `JSON.parse`, or a
parsed JSON value. -/
inductive FileContent where
  | malformed
  | json (v : Json)

/-- Content of one per-package directory `installDir/id`: the optional
`manifest.json` snapshot, the files written by the installer code itself
(e.g. `docker-compose.yml`), and, as an abstract payload, the external
commands that were run to populate the directory. -/
structure DirContent where
  manifest : Option MCPServerManifest
  files : List (String × String)
  payload : List ExtCmd

/-- The filesystem state the installer manipulates: the per-package
directories under the installation directory (an association list keyed by
package id) and the `installed.json` ledger document (`none` when the file
is absent). -/
structure State where
  dirs : List (String × DirContent)
  ledger : Option FileContent

/-- Result of one installer operation: the returned value or thrown error,
the filesystem state after the operation (JS exceptions do not roll back
prior writes), and the trace of external commands invoked. -/
structure OpResult (α : Type) where
  res : Except Err α
  state : State
  trace : List ExtCmd

/-- Path join, `join(a, b)` of `node:path` for simple segments. -/
def joinP (a b : String) : String := a ++ "/" ++ b

/-- Existence test for the directory `installDir/id` (`existsSync(serverDir)`). -/
def dirExists (s : State) (id : String) : Bool :=
  s.dirs.any (fun e => e.1 == id)

/-- Content of the directory `installDir/id`, when it exists. -/
def getDir (s : State) (id : String) : Option DirContent :=
  (s.dirs.find? (fun e => e.1 == id)).map (·.2)

/-- Serialization of one ledger record, `JSON.stringify` of the object
literal built in `install`. -/
def encodeRecord (r : InstalledServer) : Json :=
  .obj [("id", .str r.id), ("version", .str r.version), ("path", .str r.path),
        ("installedAt", .num r.installedAt), ("updatedAt", .num r.updatedAt)]

/-- Serialization of the ledger document: a JSON array of records. -/
def encodeRecords (l : List InstalledServer) : Json :=
  .arr (l.map encodeRecord)

/-- Decoder for one ledger record; defined on exactly the objects the
installer itself writes (the code performs no schema validation, so this is
the shape under which its untyped list operations behave as typed code). -/
def decodeRecord : Json → Option InstalledServer
  | .obj [("id", .str i), ("version", .str v), ("path", .str p),
          ("installedAt", .num ia), ("updatedAt", .num ua)] =>
      some ⟨i, v, p, ia, ua⟩
  | _ => none

/-- Decoder for a list of ledger records. -/
def decodeList : List Json → Option (List InstalledServer)
  | [] => some []
  | x :: xs =>
      match decodeRecord x, decodeList xs with
      | some r, some rs => some (r :: rs)
      | _, _ => none

/-- Decoder for the ledger document: a JSON array whose elements are
records. -/
def decodeRecords : Json → Option (List InstalledServer)
  | .arr xs => decodeList xs
  | _ => none

namespace Installer

/-- Raw result of `listInstalled()`: the parsed content of
`installed.json`, the JS empty array when the file is absent, and also the
JS empty array when `JSON.parse` throws (the `try/catch` in
`listInstalled`).  The TS return type annotation `InstalledServer[]` is not
enforced at runtime, so the result is an arbitrary JSON value. -/
def listInstalledRaw (s : State) : Json :=
  match s.ledger with
  | none => .arr []
  | some .malformed => .arr []
  | some (.json v) => v

/-- The result of `listInstalled()` viewed at the record type: `none` models
the states in which the parsed document is not an array of records, where
the subsequent untyped list operations of the installer would raise a JS
`TypeError`. -/
def lsRecords (s : State) : Option (List InstalledServer) :=
  decodeRecords (listInstalledRaw s)

/-- Overwrite of `installed.json` with the serialization of `l`
(`writeFileSync(dbPath, JSON.stringify(installed, ...))`). -/
def writeLedger (s : State) (l : List InstalledServer) : State :=
  { s with ledger := some (.json (encodeRecords l)) }

/-- List-level behaviour of `addToInstalledDb`: replace the first record
with the same id in place (`findIndex` then `installed[existing] = server`),
otherwise append (`installed.push(server)`). -/
def upsertRec (server : InstalledServer) : List InstalledServer → List InstalledServer
  | [] => [server]
  | r :: rest =>
      if r.id == server.id then server :: rest else r :: upsertRec server rest

/-- List-level behaviour of `removeFromInstalledDb`:
`installed.filter(s => s.id !== serverId)`. -/
def removeRec (id : String) (l : List InstalledServer) : List InstalledServer :=
  l.filter (fun r => !(r.id == id))

/-- The private method `addToInstalledDb`: read the ledger, upsert, write it
back; `none` models the JS `TypeError` on a non-array document. -/
def addToInstalledDb (server : InstalledServer) (s : State) : Option State :=
  match lsRecords s with
  | none => none
  | some l => some (writeLedger s (upsertRec server l))

/-- The private method `removeFromInstalledDb`: read the ledger, filter out
the id, write it back; `none` models the JS `TypeError` on a non-array
document. -/
def removeFromInstalledDb (id : String) (s : State) : Option State :=
  match lsRecords s with
  | none => none
  | some l => some (writeLedger s (removeRec id l))

/-- Outcome of one installation strategy: the trace of external commands
invoked, and on success the files that the code of the strategy itself wrote into the
target directory. -/
structure StratOut where
  trace : List ExtCmd
  out : Except Err (List (String × String))

/-- The private method `installNode`: prefer `npm install <npmPackage>`,
fall back to `git clone <githubRepo>` followed by `npm install`, and fail
with "No installation method available" when neither hint is present. -/
def installNode (env : Env) (m : MCPServerManifest) : StratOut :=
  match m.installation.npmPackage with
  | some pkg =>
      if env (.npmInstallPkg pkg) then ⟨[.npmInstallPkg pkg], .ok []⟩
      else ⟨[.npmInstallPkg pkg], .error (.processFailed (.npmInstallPkg pkg))⟩
  | none =>
      match m.installation.githubRepo with
      | some repo =>
          if env (.gitClone repo) then
            if env .npmInstall then ⟨[.gitClone repo, .npmInstall], .ok []⟩
            else ⟨[.gitClone repo, .npmInstall], .error (.processFailed .npmInstall)⟩
          else ⟨[.gitClone repo], .error (.processFailed (.gitClone repo))⟩
      | none => ⟨[], .error .noInstallationMethod⟩

/-- The private method `installPython`: prefer `pip install <pypiPackage> -t .`,
fall back to `git clone <githubRepo>` followed by `pip install -e .`, and
fail with "No installation method available" when neither hint is present. -/
def installPython (env : Env) (m : MCPServerManifest) : StratOut :=
  match m.installation.pypiPackage with
  | some pkg =>
      if env (.pipInstallPkg pkg) then ⟨[.pipInstallPkg pkg], .ok []⟩
      else ⟨[.pipInstallPkg pkg], .error (.processFailed (.pipInstallPkg pkg))⟩
  | none =>
      match m.installation.githubRepo with
      | some repo =>
          if env (.gitClone repo) then
            if env .pipInstallEditable then ⟨[.gitClone repo, .pipInstallEditable], .ok []⟩
            else ⟨[.gitClone repo, .pipInstallEditable], .error (.processFailed .pipInstallEditable)⟩
          else ⟨[.gitClone repo], .error (.processFailed (.gitClone repo))⟩
      | none => ⟨[], .error .noInstallationMethod⟩

/-- Content of the `docker-compose.yml` descriptor written by
`installDocker`. -/
def composeFile (id image : String) : String :=
  "services:\n  " ++ id ++ ":\n    image: " ++ image ++ "\n"

/-- The private method `installDocker`: require `dockerImage`, pull the
image, and write a `docker-compose.yml` descriptor into the directory. -/
def installDocker (env : Env) (m : MCPServerManifest) : StratOut :=
  match m.installation.dockerImage with
  | none => ⟨[], .error .dockerImageNotSpecified⟩
  | some image =>
      if env (.dockerPull image) then
        ⟨[.dockerPull image], .ok [("docker-compose.yml", composeFile m.id image)]⟩
      else ⟨[.dockerPull image], .error (.processFailed (.dockerPull image))⟩

/-- The private method `installBinary`: with a `githubRepo` hint it throws
"Binary installation from GitHub not yet implemented"; without it it throws
"No installation method available".  No external process is ever invoked. -/
def installBinary (m : MCPServerManifest) : StratOut :=
  match m.installation.githubRepo with
  | some _ => ⟨[], .error .binaryNotImplemented⟩
  | none => ⟨[], .error .noInstallationMethod⟩

/-- Strategy dispatch of `install`: the `switch (manifest.runtime.type)`. -/
def dispatch (env : Env) (m : MCPServerManifest) : StratOut :=
  match m.runtime.type with
  | .node => installNode env m
  | .python => installPython env m
  | .docker => installDocker env m
  | .binary => installBinary m

/-- The method `install(manifest)`.  `cfg` is the configured installation
directory.  Steps, as in the source: fail with AlreadyInstalled if the
target directory exists; create the directory (`mkdirSync`); run the
strategy (on failure the partly populated directory is left in place); write
the `manifest.json` snapshot; build the record with fresh timestamps; and
upsert it into the ledger. -/
def install (cfg : String) (env : Env) (now : Nat) (m : MCPServerManifest)
    (s : State) : OpResult InstalledServer :=
  if dirExists s m.id then
    ⟨.error (.alreadyInstalled m.id), s, []⟩
  else
    let so := dispatch env m
    match so.out with
    | .error e =>
        ⟨.error e, { s with dirs := (m.id, ⟨none, [], so.trace⟩) :: s.dirs }, so.trace⟩
    | .ok files =>
        let s2 : State := { s with dirs := (m.id, ⟨some m, files, so.trace⟩) :: s.dirs }
        let installed : InstalledServer :=
          { id := m.id, version := m.version, path := joinP cfg m.id,
            installedAt := now, updatedAt := now }
        match addToInstalledDb installed s2 with
        | none => ⟨.error .typeError, s2, so.trace⟩
        | some s3 => ⟨.ok installed, s3, so.trace⟩

/-- The method `remove(serverId)`: fail with NotInstalled if the directory
is absent; otherwise delete the directory recursively (`rmSync`) and then
filter the ledger.  The directory deletion precedes the ledger write. -/
def remove (id : String) (s : State) : OpResult Unit :=
  if dirExists s id then
    let s1 : State := { s with dirs := s.dirs.filter (fun e => !(e.1 == id)) }
    match removeFromInstalledDb id s1 with
    | none => ⟨.error .typeError, s1, []⟩
    | some s2 => ⟨.ok (), s2, []⟩
  else
    ⟨.error (.notInstalled id), s, []⟩

/-- The method `update(manifest)`: fail with NotInstalled if the directory
is absent; otherwise remove and reinstall (`await this.remove(...)` then
`return this.install(...)`). -/
def update (cfg : String) (env : Env) (now : Nat) (m : MCPServerManifest)
    (s : State) : OpResult InstalledServer :=
  if dirExists s m.id then
    let r1 := remove m.id s
    match r1.res with
    | .error e => ⟨.error e, r1.state, r1.trace⟩
    | .ok _ =>
        let r2 := install cfg env now m r1.state
        ⟨r2.res, r2.state, r1.trace ++ r2.trace⟩
  else
    ⟨.error (.notInstalled m.id), s, []⟩

/-- The method `getInstalled(serverId)`: linear search over
`listInstalled()`; the error case models the JS `TypeError` when the parsed
ledger is not an array. -/
def getInstalled (s : State) (id : String) : Except Err (Option InstalledServer) :=
  match lsRecords s with
  | none => .error .typeError
  | some l => .ok (l.find? (fun r => r.id == id))

/-- The method `isInstalled(serverId)`: `getInstalled(serverId) !== null`. -/
def isInstalled (s : State) (id : String) : Except Err Bool :=
  (getInstalled s id).map (fun o => o.isSome)

/-- Run-command string built by `getRunCommand` from the manifest snapshot
and the recorded directory.  A missing `dockerImage` interpolates as the JS
string "undefined". -/
def runCmdString (m : MCPServerManifest) (serverDir : String) : String :=
  match m.runtime.type with
  | .node => "node " ++ joinP serverDir m.runtime.entry
  | .python => "python " ++ joinP serverDir m.runtime.entry
  | .docker => "docker run " ++ (m.installation.dockerImage.getD "undefined")
  | .binary => joinP serverDir m.runtime.entry

/-- Directory lookup by absolute path: the directory `installDir/id` whose
joined path equals `p`. -/
def dirAtPath (cfg : String) (s : State) (p : String) : Option DirContent :=
  (s.dirs.find? (fun e => joinP cfg e.1 == p)).map (·.2)

/-- The method `getRunCommand(serverId)`: `null` when the ledger has no
record; otherwise read and parse the `manifest.json` snapshot at the
recorded path (a failing read or parse is a thrown error) and build the
invocation string by runtime type. -/
def getRunCommand (cfg : String) (s : State) (id : String) :
    Except Err (Option String) :=
  match getInstalled s id with
  | .error e => .error e
  | .ok none => .ok none
  | .ok (some installed) =>
      match dirAtPath cfg s installed.path with
      | none => .error .snapshotUnreadable
      | some dc =>
          match dc.manifest with
          | none => .error .snapshotUnreadable
          | some m => .ok (some (runCmdString m installed.path))

/-- One lifecycle operation of the Installation Manager. -/
inductive Op where
  | install (now : Nat) (m : MCPServerManifest)
  | update (now : Nat) (m : MCPServerManifest)
  | remove (id : String)

/-- State after executing one operation (whether it returned a value or
threw). -/
def execOp (cfg : String) (env : Env) (s : State) : Op → State
  | .install now m => (install cfg env now m s).state
  | .update now m => (update cfg env now m s).state
  | .remove id => (remove id s).state

/-- State after executing a sequence of operations. -/
def execSeq (cfg : String) (env : Env) : State → List Op → State
  | s, [] => s
  | s, op :: ops => execSeq cfg env (execOp cfg env s op) ops

/-- Well-formedness of a ledger list: at most one record per id (the
ledger invariant of the data model). -/
def WfList (l : List InstalledServer) : Prop :=
  ∀ x, l.countP (fun r => r.id == x) ≤ 1

/-- Well-formedness of the ledger document of a state: whenever it decodes to a
list of records, that list has at most one record per id. -/
def LedgerWf (s : State) : Prop :=
  ∀ l, lsRecords s = some l → WfList l

/-- Environment in which every external process succeeds. -/
def envAll : Env := fun _ => true

/-- Concrete node manifest installable from the package registry. -/
def mNode : MCPServerManifest :=
  { id := "alpha", version := "1", runtime := ⟨.node, "index.js"⟩,
    installation := ⟨some "alpha-pkg", none, none, none, none⟩ }

/-- The same manifest at version 2, for the update scenario. -/
def mNodeV2 : MCPServerManifest := { mNode with version := "2" }

/-- Node manifest with neither a registry package name nor a source URL. -/
def mNodeNoHints : MCPServerManifest :=
  { id := "gamma", version := "1", runtime := ⟨.node, "index.js"⟩,
    installation := ⟨none, none, none, none, none⟩ }

/-- Binary-runtime manifest carrying a source-repository hint. -/
def mBinRepo : MCPServerManifest :=
  { id := "bin1", version := "1", runtime := ⟨.binary, "bin1"⟩,
    installation := ⟨none, none, none, some "https://example.com/bin1.git", none⟩ }

/-- Binary-runtime manifest with no installation hints at all. -/
def mBinNoRepo : MCPServerManifest :=
  { id := "bin0", version := "1", runtime := ⟨.binary, "bin0"⟩,
    installation := ⟨none, none, none, none, none⟩ }

/-- Fresh state: no directories, no ledger document. -/
def emptyState : State := ⟨[], none⟩

/-- State whose ledger document exists but fails to parse. -/
def sMalformed : State := ⟨[], some .malformed⟩

/-- State whose ledger document parses to the JSON number 5 (well-formed
JSON that is not an array of records). -/
def sNumLedger : State := ⟨[], some (.json (.num 5))⟩

/-- State with a package directory for "beta" but no ledger document. -/
def sDirOnly : State := ⟨[("beta", ⟨some mNode, [], []⟩)], none⟩

/-- State with a ledger record for "alpha" but no directory for it. -/
def sLedgerOnly : State :=
  ⟨[], some (.json (encodeRecords [⟨"alpha", "0", "/srv/alpha", 0, 0⟩]))⟩

/-- State with a directory for "alpha" (content irrelevant), no ledger. -/
def sDirAlpha : State := ⟨[("alpha", ⟨none, [], []⟩)], none⟩

/-- State after installing `mNode` at time 1 into the fresh state. -/
def s3a : State := (install "/srv" envAll 1 mNode emptyState).state

theorem decodeRecord_encodeRecord (r : InstalledServer) :
    decodeRecord (encodeRecord r) = some r := rfl

theorem decodeRecords_encodeRecords (l : List InstalledServer) :
    decodeRecords (encodeRecords l) = some l := by
  induction l with
  | nil => rfl
  | cons r rest ih =>
    simp only [decodeRecords, encodeRecords, List.map_cons, decodeList,
      decodeRecord_encodeRecord] at ih ⊢
    rw [show decodeList (rest.map encodeRecord) = some rest from ih]

theorem decodeList_encode (l : List InstalledServer) :
    decodeList (l.map encodeRecord) = some l := by
  induction l with
  | nil => rfl
  | cons r rest ih => simp [decodeList, decodeRecord_encodeRecord, ih]

theorem lsRecords_writeLedger (s : State) (l : List InstalledServer) :
    lsRecords (writeLedger s l) = some l := by
  show decodeRecords (encodeRecords l) = some l
  simp [decodeRecords, encodeRecords, decodeList_encode]

theorem lsRecords_setDirs (s : State) (d : List (String × DirContent)) :
    lsRecords { s with dirs := d } = lsRecords s := rfl

theorem wfList_cons {r : InstalledServer} {rest : List InstalledServer}
    (h : WfList (r :: rest)) : WfList rest := by
  intro x
  have hx := h x
  rw [List.countP_cons] at hx
  exact le_trans (Nat.le_add_right _ _) hx

theorem countP_upsert_ne (server : InstalledServer) (x : String)
    (hx : x ≠ server.id) :
    ∀ l : List InstalledServer,
      (upsertRec server l).countP (fun r => r.id == x)
        = l.countP (fun r => r.id == x) := by
  intro l
  induction l with
  | nil => simp [upsertRec, List.countP_cons, beq_iff_eq, Ne.symm hx]
  | cons r rest ih =>
    by_cases h : r.id = server.id
    · simp [upsertRec, h, List.countP_cons]
    · simp only [upsertRec, beq_iff_eq, if_neg h, List.countP_cons, ih]

theorem countP_upsert_self (server : InstalledServer) :
    ∀ l : List InstalledServer, WfList l →
      (upsertRec server l).countP (fun r => r.id == server.id) = 1 := by
  intro l
  induction l with
  | nil => intro _; simp [upsertRec]
  | cons r rest ih =>
    intro hwf
    by_cases h : r.id = server.id
    · have h0 : rest.countP (fun r => r.id == server.id) = 0 := by
        have h1 := hwf server.id
        rw [List.countP_cons] at h1
        have h2 : ((fun (r : InstalledServer) => r.id == server.id) r) = true := by
          simp [h]
        rw [if_pos h2] at h1
        omega
      simp [upsertRec, h, List.countP_cons, h0]
    · simp only [upsertRec, beq_iff_eq, if_neg h, List.countP_cons,
        ih (wfList_cons hwf)]

theorem wf_upsert (server : InstalledServer) (l : List InstalledServer)
    (hwf : WfList l) : WfList (upsertRec server l) := by
  intro x
  by_cases hx : x = server.id
  · subst hx
    rw [countP_upsert_self server l hwf]
  · rw [countP_upsert_ne server x hx l]
    exact hwf x

theorem filter_of_countP_zero (p : InstalledServer → Bool)
    (l : List InstalledServer) (h : l.countP p = 0) : l.filter p = [] := by
  rw [List.countP_eq_zero] at h
  exact List.filter_eq_nil_iff.mpr h

theorem filter_upsert (server : InstalledServer) :
    ∀ l : List InstalledServer, WfList l →
      (upsertRec server l).filter (fun r => r.id == server.id) = [server] := by
  intro l
  induction l with
  | nil => intro _; simp [upsertRec]
  | cons r rest ih =>
    intro hwf
    by_cases h : r.id = server.id
    · have h0 : rest.countP (fun r => r.id == server.id) = 0 := by
        have h1 := hwf server.id
        rw [List.countP_cons] at h1
        have h2 : ((fun (r : InstalledServer) => r.id == server.id) r) = true := by
          simp [h]
        rw [if_pos h2] at h1
        omega
      simp [upsertRec, h, List.filter_cons, filter_of_countP_zero _ _ h0]
    · simp only [upsertRec, beq_iff_eq, if_neg h, List.filter_cons]
      exact ih (wfList_cons hwf)

theorem countP_removeRec (id : String) (l : List InstalledServer) :
    (removeRec id l).countP (fun r => r.id == id) = 0 := by
  rw [removeRec, List.countP_filter]
  simp

theorem countP_removeRec_ne (id : String) (l : List InstalledServer)
    (x : String) (hx : x ≠ id) :
    (removeRec id l).countP (fun r => r.id == x)
      = l.countP (fun r => r.id == x) := by
  rw [removeRec, List.countP_filter]
  apply List.countP_congr
  intro r _
  constructor
  · intro hr
    simp only [Bool.and_eq_true] at hr
    exact hr.1
  · intro hr
    simp only [Bool.and_eq_true]
    refine ⟨hr, ?_⟩
    simp only [beq_iff_eq] at hr ⊢
    simp [hr, hx]

theorem wf_removeRec (id : String) (l : List InstalledServer)
    (hwf : WfList l) : WfList (removeRec id l) := by
  intro x
  by_cases hx : x = id
  · subst hx
    rw [countP_removeRec]
    omega
  · rw [countP_removeRec_ne id l x hx]
    exact hwf x

theorem ledgerWf_writeLedger (s : State) (l : List InstalledServer)
    (h : WfList l) : LedgerWf (writeLedger s l) := by
  intro l' hl'
  rw [lsRecords_writeLedger] at hl'
  cases hl'
  exact h

theorem ledgerWf_setDirs (s : State) (d : List (String × DirContent))
    (h : LedgerWf s) : LedgerWf { s with dirs := d } := h

theorem install_ok_spec (cfg : String) (env : Env) (now : Nat)
    (m : MCPServerManifest) (s : State) (r : InstalledServer) (s' : State)
    (tr : List ExtCmd)
    (h : install cfg env now m s = ⟨.ok r, s', tr⟩) :
    dirExists s m.id = false ∧
    r = ⟨m.id, m.version, joinP cfg m.id, now, now⟩ ∧
    ∃ l files, lsRecords s = some l ∧
      s' = ⟨(m.id, ⟨some m, files, tr⟩) :: s.dirs,
            some (.json (encodeRecords (upsertRec r l)))⟩ := by
  unfold install at h
  by_cases hd : dirExists s m.id = true
  · rw [if_pos hd] at h
    simp at h
  · rw [if_neg hd] at h
    refine ⟨by simpa using hd, ?_⟩
    rcases hso : dispatch env m with ⟨tr0, out⟩
    rw [hso] at h
    dsimp only at h
    cases out with
    | error e => simp at h
    | ok files =>
      dsimp only at h
      unfold addToInstalledDb at h
      cases hls : lsRecords ⟨(m.id, ⟨some m, files, tr0⟩) :: s.dirs, s.ledger⟩ with
      | none => rw [hls] at h; simp at h
      | some l =>
        rw [hls] at h
        dsimp only at h
        simp only [OpResult.mk.injEq, Except.ok.injEq] at h
        obtain ⟨hr, hs', htr⟩ := h
        subst htr
        subst hr
        rw [show lsRecords ⟨(m.id, ⟨some m, files, tr0⟩) :: s.dirs, s.ledger⟩ = lsRecords s from rfl] at hls
        refine ⟨rfl, l, files, hls, ?_⟩
        rw [← hs']
        rfl



theorem install_err_dirExists (cfg : String) (env : Env) (now : Nat)
    (m : MCPServerManifest) (s : State) (hd : dirExists s m.id = true) :
    install cfg env now m s = ⟨.error (.alreadyInstalled m.id), s, []⟩ := by
  unfold install
  rw [if_pos hd]

theorem install_strategy_err (cfg : String) (env : Env) (now : Nat)
    (m : MCPServerManifest) (s : State) (tr0 : List ExtCmd) (e : Err)
    (hd : dirExists s m.id = false)
    (hdis : dispatch env m = ⟨tr0, .error e⟩) :
    install cfg env now m s
      = ⟨.error e, { s with dirs := (m.id, ⟨none, [], tr0⟩) :: s.dirs }, tr0⟩ := by
  unfold install
  rw [if_neg (by simp [hd]), hdis]

theorem remove_err (id : String) (s : State) (hd : dirExists s id = false) :
    remove id s = ⟨.error (.notInstalled id), s, []⟩ := by
  unfold remove
  rw [if_neg (by simp [hd])]

theorem update_err (cfg : String) (env : Env) (now : Nat)
    (m : MCPServerManifest) (s : State) (hd : dirExists s m.id = false) :
    update cfg env now m s = ⟨.error (.notInstalled m.id), s, []⟩ := by
  unfold update
  rw [if_neg (by simp [hd])]

theorem remove_ok_spec (id : String) (s : State) (s' : State) (tr : List ExtCmd)
    (h : remove id s = ⟨.ok (), s', tr⟩) :
    dirExists s id = true ∧ tr = [] ∧
    ∃ l, lsRecords s = some l ∧
      s' = ⟨s.dirs.filter (fun e => !(e.1 == id)),
            some (.json (encodeRecords (removeRec id l)))⟩ := by
  unfold remove at h
  by_cases hd : dirExists s id = true
  · rw [if_pos hd] at h
    dsimp only at h
    refine ⟨hd, ?_⟩
    unfold removeFromInstalledDb at h
    cases hls : lsRecords ⟨s.dirs.filter (fun e => !(e.1 == id)), s.ledger⟩ with
    | none => rw [hls] at h; simp at h
    | some l =>
      rw [hls] at h
      dsimp only at h
      simp only [OpResult.mk.injEq] at h
      obtain ⟨_, hs', htr⟩ := h
      subst htr
      rw [show lsRecords ⟨s.dirs.filter (fun e => !(e.1 == id)), s.ledger⟩
            = lsRecords s from rfl] at hls
      exact ⟨rfl, l, hls, hs'.symm⟩
  · rw [if_neg hd] at h
    simp at h

theorem remove_res_ok (id : String) (s : State) (s' : State) (tr : List ExtCmd)
    (h : remove id s = ⟨.ok (), s', tr⟩) : remove id s = ⟨.ok (), s', []⟩ := by
  obtain ⟨-, htr, -⟩ := remove_ok_spec id s s' tr h
  rw [← htr]
  exact h

theorem update_ok_spec (cfg : String) (env : Env) (now : Nat)
    (m : MCPServerManifest) (s : State) (r : InstalledServer) (s' : State)
    (tr : List ExtCmd)
    (h : update cfg env now m s = ⟨.ok r, s', tr⟩) :
    dirExists s m.id = true ∧
    ∃ s1 tr1 tr2, remove m.id s = ⟨.ok (), s1, tr1⟩ ∧
      install cfg env now m s1 = ⟨.ok r, s', tr2⟩ := by
  unfold update at h
  by_cases hd : dirExists s m.id = true
  · rw [if_pos hd] at h
    dsimp only at h
    refine ⟨hd, ?_⟩
    rcases hrm : remove m.id s with ⟨res1, s1, tr1⟩
    rw [hrm] at h
    dsimp only at h
    cases res1 with
    | error e => simp at h
    | ok u =>
      cases u
      rcases hins : install cfg env now m s1 with ⟨res2, s2, tr2⟩
      rw [hins] at h
      dsimp only at h
      simp only [OpResult.mk.injEq] at h
      obtain ⟨hres, hs', -⟩ := h
      subst hres
      subst hs'
      exact ⟨s1, tr1, tr2, rfl, hins⟩
  · rw [if_neg hd] at h
    simp at h

theorem ledgerWf_install (cfg : String) (env : Env) (now : Nat)
    (m : MCPServerManifest) (s : State) (hwf : LedgerWf s) :
    LedgerWf (install cfg env now m s).state := by
  unfold install
  by_cases hd : dirExists s m.id = true
  · rw [if_pos hd]
    exact hwf
  · rw [if_neg hd]
    rcases dispatch env m with ⟨tr0, out⟩
    dsimp only
    cases out with
    | error e => exact hwf
    | ok files =>
      dsimp only
      unfold addToInstalledDb
      cases hls : lsRecords ⟨(m.id, ⟨some m, files, tr0⟩) :: s.dirs, s.ledger⟩ with
      | none => dsimp only; exact hwf
      | some l =>
        dsimp only
        exact ledgerWf_writeLedger _ _ (wf_upsert _ l (hwf l hls))

theorem ledgerWf_remove (id : String) (s : State) (hwf : LedgerWf s) :
    LedgerWf (remove id s).state := by
  unfold remove
  by_cases hd : dirExists s id = true
  · rw [if_pos hd]
    dsimp only
    unfold removeFromInstalledDb
    cases hls : lsRecords ⟨s.dirs.filter (fun e => !(e.1 == id)), s.ledger⟩ with
    | none => dsimp only; exact hwf
    | some l =>
      dsimp only
      exact ledgerWf_writeLedger _ _ (wf_removeRec id l (hwf l hls))
  · rw [if_neg hd]
    exact hwf

theorem ledgerWf_update (cfg : String) (env : Env) (now : Nat)
    (m : MCPServerManifest) (s : State) (hwf : LedgerWf s) :
    LedgerWf (update cfg env now m s).state := by
  unfold update
  by_cases hd : dirExists s m.id = true
  · rw [if_pos hd]
    dsimp only
    cases hres : (remove m.id s).res with
    | error e => exact ledgerWf_remove _ _ hwf
    | ok u => exact ledgerWf_install _ _ _ _ _ (ledgerWf_remove _ _ hwf)
  · rw [if_neg hd]
    exact hwf

theorem ledgerWf_execOp (cfg : String) (env : Env) (s : State) (op : Op)
    (hwf : LedgerWf s) : LedgerWf (execOp cfg env s op) := by
  cases op with
  | install now m => exact ledgerWf_install cfg env now m s hwf
  | update now m => exact ledgerWf_update cfg env now m s hwf
  | remove id => exact ledgerWf_remove id s hwf

theorem ledgerWf_execSeq (cfg : String) (env : Env) (ops : List Op) :
    ∀ s : State, LedgerWf s → LedgerWf (execSeq cfg env s ops) := by
  induction ops with
  | nil => intro s hwf; exact hwf
  | cons op rest ih =>
    intro s hwf
    exact ih _ (ledgerWf_execOp cfg env s op hwf)

theorem dirExists_filter_self (d : List (String × DirContent))
    (id : String) (led : Option FileContent) :
    dirExists ⟨d.filter (fun e => !(e.1 == id)), led⟩ id = false := by
  unfold dirExists
  rw [List.any_eq_false]
  intro x hx
  have h2 := (List.mem_filter.mp hx).2
  simp at h2 ⊢
  exact h2

theorem ledgerWf_emptyLedger (d : List (String × DirContent)) :
    LedgerWf ⟨d, none⟩ := by
  intro l h
  injection h with h1
  subst h1
  intro x
  simp

end Installer

open Installer

/-- C2: for every id whose target directory already exists, `install` of a
manifest with that id fails with AlreadyInstalled and leaves the state (all
directory contents and the ledger document) exactly as it was, invoking no
external process. -/
theorem no_double_install (cfg : String) (env : Env) (now : Nat)
    (m : MCPServerManifest) (s : State) (hd : dirExists s m.id = true) :
    Installer.install cfg env now m s = ⟨.error (.alreadyInstalled m.id), s, []⟩ :=
  install_err_dirExists cfg env now m s hd

/-- Witness for C2: installing `mNode` while a directory named "alpha"
exists fails with AlreadyInstalled and changes nothing. -/
theorem no_double_install_witness :
    Installer.install "/srv" envAll 0 mNode sDirAlpha
      = ⟨.error (.alreadyInstalled "alpha"), sDirAlpha, []⟩ :=
  no_double_install "/srv" envAll 0 mNode sDirAlpha rfl

/-- C5: `listInstalled` never fails: when the ledger file is absent it
returns the empty array, and when the file exists but fails to parse as
JSON it also returns the empty array rather than raising an error. -/
theorem listInstalled_never_fails (s : State) :
    (s.ledger = none →
      listInstalledRaw s = .arr [] ∧ lsRecords s = some []) ∧
    (s.ledger = some .malformed →
      listInstalledRaw s = .arr [] ∧ lsRecords s = some []) := by
  obtain ⟨d, led⟩ := s
  constructor
  · intro h
    cases h
    exact ⟨rfl, rfl⟩
  · intro h
    cases h
    exact ⟨rfl, rfl⟩

/-- Witness for C5: the absent-file and malformed-file states both give the
empty sequence. -/
theorem listInstalled_never_fails_witness :
    listInstalledRaw emptyState = .arr [] ∧
    listInstalledRaw sMalformed = .arr [] :=
  ⟨((listInstalled_never_fails emptyState).1 rfl).1,
   ((listInstalled_never_fails sMalformed).2 rfl).1⟩

/-- C10: `listInstalled` performs no schema validation: whatever JSON value
the ledger document parses to is returned as-is, even when it is not an
array of installation records. -/
theorem listInstalled_no_validation (s : State) (v : Json)
    (h : s.ledger = some (.json v)) : listInstalledRaw s = v := by
  obtain ⟨d, led⟩ := s
  cases h
  rfl

/-- Witness for C10: a ledger document holding the JSON number 5 is
returned as-is, not replaced by the empty sequence. -/
theorem listInstalled_no_validation_witness :
    listInstalledRaw sNumLedger = .num 5 :=
  listInstalled_no_validation sNumLedger (.num 5) rfl

/-- C6: a node-runtime manifest with neither a registry package name nor a
source-repository URL makes `install` fail with NoInstallationMethod, with
an empty external-command trace (the failure precedes any external
process). -/
theorem node_missing_hints_fails (cfg : String) (env : Env) (now : Nat)
    (m : MCPServerManifest) (s : State)
    (ht : m.runtime.type = .node)
    (h1 : m.installation.npmPackage = none)
    (h2 : m.installation.githubRepo = none)
    (hd : dirExists s m.id = false) :
    Installer.install cfg env now m s
      = ⟨.error .noInstallationMethod,
         { s with dirs := (m.id, ⟨none, [], []⟩) :: s.dirs }, []⟩ := by
  have hdis : dispatch env m = ⟨[], .error .noInstallationMethod⟩ := by
    unfold dispatch
    rw [ht]
    unfold installNode
    rw [h1, h2]
  exact install_strategy_err cfg env now m s [] _ hd hdis

/-- Witness for C6: installing `mNodeNoHints` into the fresh state fails
with NoInstallationMethod and an empty trace. -/
theorem node_missing_hints_fails_witness :
    Installer.install "/srv" envAll 0 mNodeNoHints emptyState
      = ⟨.error .noInstallationMethod,
         { emptyState with
            dirs := ("gamma", ⟨none, [], []⟩) :: emptyState.dirs }, []⟩ :=
  node_missing_hints_fails "/srv" envAll 0 mNodeNoHints emptyState
    rfl rfl rfl rfl

/-- Counterexample to C7 as stated: a binary-runtime manifest with no
source-repository hint fails with NoInstallationMethod, not with the
UnsupportedStrategy ("not yet implemented") error the claim predicts for
every binary manifest. -/
theorem binary_install_cex :
    mBinNoRepo.runtime.type = .binary ∧
    (Installer.install "/srv" envAll 0 mBinNoRepo emptyState).res
      = .error .noInstallationMethod ∧
    Err.noInstallationMethod ≠ Err.binaryNotImplemented :=
  ⟨rfl, rfl, by simp⟩

/-- C7 as amended: `install` of a binary-runtime manifest whose target
directory does not yet exist always fails without invoking any external
process — with UnsupportedStrategy ("binary installation ... not yet
implemented") when a source-repository hint is present, and with
NoInstallationMethod when no hint is present. -/
theorem binary_install_always_fails (cfg : String) (env : Env) (now : Nat)
    (m : MCPServerManifest) (s : State)
    (ht : m.runtime.type = .binary)
    (hd : dirExists s m.id = false) :
    (∀ repo, m.installation.githubRepo = some repo →
      Installer.install cfg env now m s
        = ⟨.error .binaryNotImplemented,
           { s with dirs := (m.id, ⟨none, [], []⟩) :: s.dirs }, []⟩) ∧
    (m.installation.githubRepo = none →
      Installer.install cfg env now m s
        = ⟨.error .noInstallationMethod,
           { s with dirs := (m.id, ⟨none, [], []⟩) :: s.dirs }, []⟩) := by
  constructor
  · intro repo hrepo
    have hdis : dispatch env m = ⟨[], .error .binaryNotImplemented⟩ := by
      unfold dispatch
      rw [ht]
      unfold installBinary
      rw [hrepo]
    exact install_strategy_err cfg env now m s [] _ hd hdis
  · intro hrepo
    have hdis : dispatch env m = ⟨[], .error .noInstallationMethod⟩ := by
      unfold dispatch
      rw [ht]
      unfold installBinary
      rw [hrepo]
    exact install_strategy_err cfg env now m s [] _ hd hdis

/-- Witness for the amended C7: both binary manifests fail, with the error
depending on the presence of the source-repository hint. -/
theorem binary_install_always_fails_witness :
    Installer.install "/srv" envAll 0 mBinRepo emptyState
      = ⟨.error .binaryNotImplemented,
         { emptyState with
            dirs := ("bin1", ⟨none, [], []⟩) :: emptyState.dirs }, []⟩ ∧
    Installer.install "/srv" envAll 0 mBinNoRepo emptyState
      = ⟨.error .noInstallationMethod,
         { emptyState with
            dirs := ("bin0", ⟨none, [], []⟩) :: emptyState.dirs }, []⟩ :=
  ⟨(binary_install_always_fails "/srv" envAll 0 mBinRepo emptyState rfl rfl).1
      "https://example.com/bin1.git" rfl,
   (binary_install_always_fails "/srv" envAll 0 mBinNoRepo emptyState rfl rfl).2
      rfl⟩

/-- C1: if `install(m)` succeeds on a state satisfying the one-record-per-id
ledger invariant, the target directory for `m.id` exists and holds a
`manifest.json` snapshot equal to `m`, the returned record is the fresh
record carrying the id and version of `m` and the path `installDir/m.id`, and the ledger
contains exactly one record with id `m.id`, namely that record. -/
theorem install_creates_both (cfg : String) (env : Env) (now : Nat)
    (m : MCPServerManifest) (s : State) (r : InstalledServer) (s' : State)
    (tr : List ExtCmd) (hwf : LedgerWf s)
    (h : Installer.install cfg env now m s = ⟨.ok r, s', tr⟩) :
    dirExists s' m.id = true ∧
    (getDir s' m.id).map DirContent.manifest = some (some m) ∧
    r = ⟨m.id, m.version, joinP cfg m.id, now, now⟩ ∧
    ∃ l, lsRecords s' = some l ∧ l.filter (fun e => e.id == m.id) = [r] := by
  obtain ⟨hdf, hr, l, files, hls, hs'⟩ :=
    install_ok_spec cfg env now m s r s' tr h
  subst hs'
  subst hr
  refine ⟨?_, ?_, rfl,
    upsertRec ⟨m.id, m.version, joinP cfg m.id, now, now⟩ l,
    decodeRecords_encodeRecords _, ?_⟩
  · simp [dirExists]
  · simp [getDir, List.find?]
  · exact filter_upsert
      (⟨m.id, m.version, joinP cfg m.id, now, now⟩ : InstalledServer) l
      (hwf l hls)

/-- Witness for C1: a successful concrete installation of `mNode` into the
fresh state creates the directory, the snapshot and the unique ledger
record. -/
theorem install_creates_both_witness :
    dirExists s3a "alpha" = true ∧
    (getDir s3a "alpha").map DirContent.manifest = some (some mNode) ∧
    (⟨"alpha", "1", "/srv/alpha", 1, 1⟩ : InstalledServer)
      = ⟨mNode.id, mNode.version, joinP "/srv" mNode.id, 1, 1⟩ ∧
    ∃ l, lsRecords s3a = some l ∧
      l.filter (fun e => e.id == mNode.id)
        = [⟨"alpha", "1", "/srv/alpha", 1, 1⟩] :=
  install_creates_both "/srv" envAll 1 mNode emptyState
    ⟨"alpha", "1", "/srv/alpha", 1, 1⟩ s3a [.npmInstallPkg "alpha-pkg"]
    (ledgerWf_emptyLedger []) rfl

/-- C4: after `remove(id)` succeeds, the directory no longer exists and no
ledger record with that id remains, and a second `remove(id)` fails with
NotInstalled. -/
theorem remove_clears_both (id : String) (s : State)
    (h : (Installer.remove id s).res = .ok ()) :
    dirExists (Installer.remove id s).state id = false ∧
    (∃ l, lsRecords (Installer.remove id s).state = some l ∧
       l.countP (fun r => r.id == id) = 0) ∧
    (Installer.remove id (Installer.remove id s).state).res
      = .error (.notInstalled id) := by
  rcases hrm : Installer.remove id s with ⟨res1, s1, tr1⟩
  rw [hrm] at h
  dsimp only at h ⊢
  subst h
  obtain ⟨hd, htr, l, hls, hs1⟩ := remove_ok_spec id s s1 tr1 hrm
  subst hs1
  refine ⟨dirExists_filter_self s.dirs id _,
    ⟨removeRec id l, decodeRecords_encodeRecords _, countP_removeRec id l⟩, ?_⟩
  rw [remove_err id _ (dirExists_filter_self s.dirs id _)]

/-- Witness for C4: removing "alpha" from the concrete installed state
clears the directory and the ledger record, and a second removal fails. -/
theorem remove_clears_both_witness :
    dirExists (Installer.remove "alpha" s3a).state "alpha" = false ∧
    (∃ l, lsRecords (Installer.remove "alpha" s3a).state = some l ∧
       l.countP (fun r => r.id == "alpha") = 0) ∧
    (Installer.remove "alpha" (Installer.remove "alpha" s3a).state).res
      = .error (.notInstalled "alpha") :=
  remove_clears_both "alpha" s3a rfl

/-- Counterexample to C8 as stated: after installing "alpha" at time 1 the
record's `installedAt` is 1, but a successful update at time 2 stores a
record whose `installedAt` is 2 — the creation timestamp is not preserved
across update, because update reinstalls from scratch. -/
theorem update_timestamps_cex :
    (Installer.install "/srv" envAll 1 mNode emptyState).res
      = .ok ⟨"alpha", "1", "/srv/alpha", 1, 1⟩ ∧
    lsRecords s3a = some [⟨"alpha", "1", "/srv/alpha", 1, 1⟩] ∧
    (Installer.update "/srv" envAll 2 mNodeV2 s3a).res
      = .ok ⟨"alpha", "2", "/srv/alpha", 2, 2⟩ ∧
    lsRecords (Installer.update "/srv" envAll 2 mNodeV2 s3a).state
      = some [⟨"alpha", "2", "/srv/alpha", 2, 2⟩] ∧
    (2 : Nat) ≠ 1 :=
  ⟨rfl, rfl, rfl, rfl, by simp⟩

/-- C8 as amended: `updatedAt` is refreshed on every mutation, and
`installedAt` is likewise set to the mutation time: a successful update at
time `now` (like an install at time `now`) stores the record with both
`installedAt` and `updatedAt` equal to `now`; the original installation
timestamp is not preserved, since update reinstalls. -/
theorem update_timestamps_amended (cfg : String) (env : Env) (now : Nat)
    (m : MCPServerManifest) (s : State) (r : InstalledServer) (s' : State)
    (tr : List ExtCmd) (hwf : LedgerWf s)
    (h : Installer.update cfg env now m s = ⟨.ok r, s', tr⟩) :
    r.installedAt = now ∧ r.updatedAt = now ∧
    ∃ l, lsRecords s' = some l ∧
      l.filter (fun e => e.id == m.id)
        = [⟨m.id, m.version, joinP cfg m.id, now, now⟩] := by
  obtain ⟨hd, s1, tr1, tr2, hrm, hins⟩ :=
    update_ok_spec cfg env now m s r s' tr h
  have hwf1 : LedgerWf s1 := by
    have hw := ledgerWf_remove m.id s hwf
    rw [hrm] at hw
    exact hw
  obtain ⟨hdf, hr, l, files, hls, hs'⟩ :=
    install_ok_spec cfg env now m s1 r s' tr2 hins
  subst hs'
  subst hr
  refine ⟨rfl, rfl,
    upsertRec ⟨m.id, m.version, joinP cfg m.id, now, now⟩ l,
    decodeRecords_encodeRecords _, ?_⟩
  exact filter_upsert
    (⟨m.id, m.version, joinP cfg m.id, now, now⟩ : InstalledServer) l
    (hwf1 l hls)

/-- Witness for the amended C8: the concrete update at time 2 stores the
record with both timestamps equal to 2. -/
theorem update_timestamps_witness :
    (⟨"alpha", "2", "/srv/alpha", 2, 2⟩ : InstalledServer).installedAt = 2 ∧
    (⟨"alpha", "2", "/srv/alpha", 2, 2⟩ : InstalledServer).updatedAt = 2 ∧
    ∃ l, lsRecords (Installer.update "/srv" envAll 2 mNodeV2 s3a).state
        = some l ∧
      l.filter (fun e => e.id == mNodeV2.id)
        = [⟨mNodeV2.id, mNodeV2.version, joinP "/srv" mNodeV2.id, 2, 2⟩] :=
  update_timestamps_amended "/srv" envAll 2 mNodeV2 s3a
    ⟨"alpha", "2", "/srv/alpha", 2, 2⟩
    (Installer.update "/srv" envAll 2 mNodeV2 s3a).state
    [.npmInstallPkg "alpha-pkg"]
    (ledgerWf_install "/srv" envAll 1 mNode emptyState (ledgerWf_emptyLedger []))
    rfl

/-- C9: the AlreadyInstalled/NotInstalled gates of install, update, and
remove are decided solely by directory existence, whereas getRunCommand
consults only the ledger: on a state with a ledger record for "alpha" but
no directory, install of "alpha" succeeds, and on a state with a directory
"beta" but no ledger record, getRunCommand returns not-found. -/
theorem dir_vs_ledger_source_of_truth :
    (∀ (cfg : String) (env : Env) (now : Nat) (m : MCPServerManifest)
       (s : State), dirExists s m.id = true →
       (Installer.install cfg env now m s).res
         = .error (.alreadyInstalled m.id)) ∧
    (∀ (cfg : String) (env : Env) (now : Nat) (m : MCPServerManifest)
       (s : State), dirExists s m.id = false →
       (Installer.update cfg env now m s).res = .error (.notInstalled m.id)) ∧
    (∀ (id : String) (s : State), dirExists s id = false →
       (Installer.remove id s).res = .error (.notInstalled id)) ∧
    (Installer.install "/srv" envAll 3 mNode sLedgerOnly).res
      = .ok ⟨"alpha", "1", "/srv/alpha", 3, 3⟩ ∧
    Installer.getRunCommand "/srv" sDirOnly "beta" = .ok none := by
  refine ⟨?_, ?_, ?_, rfl, rfl⟩
  · intro cfg env now m s hd
    rw [install_err_dirExists cfg env now m s hd]
  · intro cfg env now m s hd
    rw [update_err cfg env now m s hd]
  · intro id s hd
    rw [remove_err id s hd]

/-- Witness for C9: the three directory-gated failures at concrete
states. -/
theorem dir_vs_ledger_witness :
    (Installer.install "/srv" envAll 0 mNode sDirAlpha).res
      = .error (.alreadyInstalled "alpha") ∧
    (Installer.update "/srv" envAll 0 mNode emptyState).res
      = .error (.notInstalled "alpha") ∧
    (Installer.remove "alpha" emptyState).res
      = .error (.notInstalled "alpha") :=
  ⟨dir_vs_ledger_source_of_truth.1 "/srv" envAll 0 mNode sDirAlpha rfl,
   dir_vs_ledger_source_of_truth.2.1 "/srv" envAll 0 mNode emptyState rfl,
   dir_vs_ledger_source_of_truth.2.2.1 "alpha" emptyState rfl⟩

/-- C3: installing an id at version 1 and successfully updating to
version 2 leaves the ledger with exactly one record for that id, at
version 2; and every sequence of install/update/remove operations preserves
the at-most-one-record-per-id ledger invariant. -/
theorem update_replaces_not_appends :
    (∀ (cfg : String) (env : Env) (s : State) (X : String) (now1 now2 : Nat)
       (m1 m2 : MCPServerManifest) (r1 : InstalledServer) (s1 : State)
       (tr1 : List ExtCmd) (r2 : InstalledServer) (s2 : State)
       (tr2 : List ExtCmd),
       LedgerWf s → m1.id = X → m1.version = "1" →
       m2.id = X → m2.version = "2" →
       Installer.install cfg env now1 m1 s = ⟨.ok r1, s1, tr1⟩ →
       Installer.update cfg env now2 m2 s1 = ⟨.ok r2, s2, tr2⟩ →
       ∃ l, lsRecords s2 = some l ∧
         l.countP (fun e => e.id == X) = 1 ∧
         l.filter (fun e => e.id == X)
           = [⟨X, "2", joinP cfg X, now2, now2⟩]) ∧
    (∀ (cfg : String) (env : Env) (ops : List Op) (s : State),
       LedgerWf s → LedgerWf (execSeq cfg env s ops)) := by
  constructor
  · intro cfg env s X now1 now2 m1 m2 r1 s1 tr1 r2 s2 tr2
      hwf hid1 hv1 hid2 hv2 hi1 hu
    subst hid2
    have hwf1 : LedgerWf s1 := by
      have hw := ledgerWf_install cfg env now1 m1 s hwf
      rw [hi1] at hw
      exact hw
    obtain ⟨hd, s1x, tra, trb, hrm, hins⟩ :=
      update_ok_spec cfg env now2 m2 s1 r2 s2 tr2 hu
    have hwf1x : LedgerWf s1x := by
      have hw := ledgerWf_remove m2.id s1 hwf1
      rw [hrm] at hw
      exact hw
    obtain ⟨hdf, hr2, l, files, hls, hs2⟩ :=
      install_ok_spec cfg env now2 m2 s1x r2 s2 trb hins
    subst hs2
    subst hr2
    have hflt :
        (upsertRec (⟨m2.id, m2.version, joinP cfg m2.id, now2, now2⟩ :
            InstalledServer) l).filter (fun e => e.id == m2.id)
          = [⟨m2.id, m2.version, joinP cfg m2.id, now2, now2⟩] :=
      filter_upsert
        (⟨m2.id, m2.version, joinP cfg m2.id, now2, now2⟩ : InstalledServer)
        l (hwf1x l hls)
    refine ⟨upsertRec ⟨m2.id, m2.version, joinP cfg m2.id, now2, now2⟩ l,
      decodeRecords_encodeRecords _, ?_, ?_⟩
    · rw [List.countP_eq_length_filter, hflt]
      rfl
    · rw [← hv2]
      exact hflt
  · intro cfg env ops s hwf
    exact ledgerWf_execSeq cfg env ops s hwf

/-- Witness for C3: the concrete install-at-1-then-update-to-2 run, plus
invariant preservation instantiated at the empty operation list. -/
theorem update_replaces_not_appends_witness :
    (∃ l, lsRecords (Installer.update "/srv" envAll 2 mNodeV2 s3a).state
        = some l ∧
      l.countP (fun e => e.id == "alpha") = 1 ∧
      l.filter (fun e => e.id == "alpha")
        = [⟨"alpha", "2", joinP "/srv" "alpha", 2, 2⟩]) ∧
    LedgerWf (execSeq "/srv" envAll emptyState []) :=
  ⟨update_replaces_not_appends.1 "/srv" envAll emptyState "alpha" 1 2
      mNode mNodeV2 ⟨"alpha", "1", "/srv/alpha", 1, 1⟩ s3a
      [.npmInstallPkg "alpha-pkg"] ⟨"alpha", "2", "/srv/alpha", 2, 2⟩
      (Installer.update "/srv" envAll 2 mNodeV2 s3a).state
      [.npmInstallPkg "alpha-pkg"]
      (ledgerWf_emptyLedger []) rfl rfl rfl rfl rfl rfl,
   update_replaces_not_appends.2 "/srv" envAll [] emptyState
      (ledgerWf_emptyLedger [])⟩
